import Mathlib

/-!
Verification of the `memoizer` Go package (KevinWang15/memoizer).

The development shallowly embeds the package in Lean:

* `GoValue` / `GoType` model Go interface values and the runtime type
  assertions `value.(T)` performed by `Memoizer.Memoize`.
* `Memoizer` with `cacheGet` / `cacheSet` models a `Memoizer[T]` instance
  holding a `go-cache` store: entries carry an absolute expiry timestamp
  (`none` meaning never expire) and `Set` resolves the `time.Duration`
  directive exactly as `go-cache` does (`0` falls back to the instance
  default, a non-positive resolved duration means never expire).
* `Memoize` is the sequential big-step semantics of `Memoizer.Memoize`:
  cache lookup with type assertion and panic on mismatch, producer
  execution under `singleflight.Do` on a miss, per-call expiration option
  resolution (last `ExpirationOption` wins), caching only on success, the
  `err != nil && result == nil` zero-value return, and the deferred
  recover block that unwraps the panic value delivered by `singleflight`
  before re-panicking.  Two ghost observations are threaded through the
  result — `producerInvoked` and `callbackEvals` — mirroring the exact
  program points at which `fn()` and `ExpirationOption.Callback` are
  called.
* A separate interleaving model (`SysState` / `stepAct`) captures the
  concurrent behaviour of the call-coalescing layer for one key.
-/

/-!
Verification of the `memoizer` Go package (KevinWang15/memoizer).

The development shallowly embeds the package in Lean:

* `GoValue` / `GoType` model Go interface values and the runtime type
  assertions `value.(T)` performed by `Memoizer.Memoize`.
* `Memoizer` with `cacheGet` / `cacheSet` models a `Memoizer[T]` instance
  holding a `go-cache` store: entries carry an absolute expiry timestamp
  (`none` meaning never expire) and `Set` resolves the `time.Duration`
  directive exactly as `go-cache` does (`0` falls back to the instance
  default, a non-positive resolved duration means never expire).
* `Memoize` is the sequential big-step semantics of
  `Memoizer.Memoize` (memoizer.go): cache lookup with type assertion and
  panic on mismatch, producer execution under `singleflight.Do` on a miss,
  per-call expiration option resolution (last `ExpirationOption` wins),
  caching only on success, the `err != nil && result == nil` zero-value
  return, and the deferred recover block that unwraps the panic value
  delivered by `singleflight` before re-panicking.
  Two ghost observations are threaded through the result —
  `producerInvoked` and `callbackEvals` — mirroring the exact program
  points at which `fn()` and `ExpirationOption.Callback` are called.
* A separate interleaving model (`SysState` / `stepAct`) captures the
  concurrent behaviour of the call-coalescing layer for one key.
-/

/-- Go runtime values as stored in the cache (`interface{}`), returned by
producers, and carried by panics.  `errv` is a plain error value,
`wrapv` is an error that also implements `Unwrap() error`, and
`panicErrorv` is the `panicError` wrapper with which the `singleflight`
coordinator re-raises a producer panic (it implements both `Error` and
`Unwrap`). -/
inductive GoValue where
  | nilv
  | intv (n : Int)
  | strv (s : String)
  | boolv (b : Bool)
  | errv (msg : String)
  | wrapv (msg : String) (inner : GoValue)
  | panicErrorv (value : GoValue)
deriving DecidableEq, Repr

/-- Static result types `T` a `Memoizer[T]` instance can be declared at
in the claims we consider. -/
inductive GoType where
  | tInt
  | tStr
  | tBool
  | tErr
  | tAny
deriving DecidableEq, Repr

/-- Whether the Go type assertion `v.(T)` succeeds.  A nil interface
value fails the assertion for every `T` (including `interface\x7b\x7d`);
error values assert to the error interface. -/
def typeAsserts (v : GoValue) (t : GoType) : Bool :=
  match v, t with
  | .nilv, _ => false
  | _, .tAny => true
  | .intv _, .tInt => true
  | .strv _, .tStr => true
  | .boolv _, .tBool => true
  | .errv _, .tErr => true
  | .wrapv _ _, .tErr => true
  | .panicErrorv _, .tErr => true
  | _, _ => false

/-- The Go zero value `var zero T` of each modelled type. -/
def zeroOf : GoType → GoValue
  | .tInt => .intv 0
  | .tStr => .strv ""
  | .tBool => .boolv false
  | .tErr => .nilv
  | .tAny => .nilv

/-- Whether a Go value satisfies the `error` interface, as checked by
the type assertion `p.value.(error)` inside the coordinator wrapper. -/
def isGoError : GoValue → Bool
  | .errv _ => true
  | .wrapv _ _ => true
  | .panicErrorv _ => true
  | _ => false

/-- Whether a value implements the `unwrappableErr` interface of
memoizer.go (`Unwrap() error`). -/
def implementsUnwrap : GoValue → Bool
  | .wrapv _ _ => true
  | .panicErrorv _ => true
  | _ => false

/-- The result of calling `Unwrap()` on a value.  On the coordinator
wrapper `panicError`, `Unwrap` returns the wrapped panic value when that
value is an error, and a nil error otherwise. -/
def goUnwrap : GoValue → GoValue
  | .wrapv _ inner => inner
  | .panicErrorv v => if isGoError v then v else .nilv
  | _ => .nilv

/-- The deferred recover block of `Memoizer.Memoize` (part_000 lines
66-74): a recovered panic value that implements `unwrappableErr` is
re-raised as its `Unwrap()`, any other panic value is re-raised
unchanged. -/
def recoverFilter (r : GoValue) : GoValue :=
  if implementsUnwrap r then goUnwrap r else r

/-- A per-call option passed to `Memoize` (option.go): either an
`ExpirationOption` holding a callback from the result value to a
`time.Duration` (modelled in integral nanoseconds), or some other
implementation of the empty `Option` interface, which `Memoize`
ignores. -/
inductive MOption where
  | withExpiration (callback : GoValue → Int)
  | other

/-- The option-resolution loop of `Memoize` (part_000 lines 81-86):
starting from `cache.DefaultExpiration = 0`, each `ExpirationOption`
overwrites the pending duration with its callback applied to the
producer result, so the last `ExpirationOption` wins. -/
def resolveExpiration (options : List MOption) (res : GoValue) : Int :=
  options.foldl
    (fun acc o =>
      match o with
      | .withExpiration cb => cb res
      | .other => acc) 0

/-- The callback of the last `ExpirationOption` in an option list, if
any. -/
def lastExpOpt (options : List MOption) : Option (GoValue → Int) :=
  options.foldl
    (fun acc o =>
      match o with
      | .withExpiration cb => some cb
      | .other => acc) none

/-- Ghost count of `ExpirationOption` values in an option list: the
number of callback invocations the success path performs. -/
def countExpOptions (options : List MOption) : Nat :=
  options.countP
    (fun o =>
      match o with
      | .withExpiration _ => true
      | .other => false)

/-- A `Memoizer[T]` instance: the declared result type, the default
expiration duration of its `go-cache` store (`-1` = `NoExpiration` for
`NewMemoizer`), and the store contents, mapping keys to a value plus an
optional absolute expiry timestamp (`none` = never expires).  Timestamps
are naturals (nanoseconds since epoch). -/
structure Memoizer where
  tag : GoType
  defaultExpiration : Int
  cache : String → Option (GoValue × Option Nat)

/-- Modelled from the spec: `NewMemoizer` (construction with no
expiration) — a fresh instance with an empty store whose default
directive is `NoExpiration`. -/
def NewMemoizer (tag : GoType) : Memoizer :=
  { tag := tag, defaultExpiration := -1, cache := fun _ => none }

/-- Modelled from the spec: construction with a fixed global expiration
(`NewMemoizerWithCacheExpiration`). -/
def NewMemoizerWithCacheExpiration (tag : GoType) (expiration : Int) : Memoizer :=
  { tag := tag, defaultExpiration := expiration, cache := fun _ => none }

/-- Modelled from the spec: the `get` of the Bounded Cache Store
(`go-cache Get`): returns the stored value only when the entry exists
and has not expired; an entry with absolute expiry `e` is live at `now`
iff `now ≤ e`, and an entry without expiry is always live. -/
def cacheGet (c : String → Option (GoValue × Option Nat)) (k : String) (now : Nat) :
    Option GoValue :=
  match c k with
  | none => none
  | some (v, none) => some v
  | some (v, some e) => if now ≤ e then some v else none

/-- Modelled from the spec: the `set` of the Bounded Cache Store
(`go-cache Set`): a duration directive of `0` (`DefaultExpiration`)
falls back to the instance default; a positive resolved duration yields
an absolute expiry `now + d`; a non-positive one stores the entry
without expiry.  Any prior entry is overwritten unconditionally. -/
def cacheSet (c : String → Option (GoValue × Option Nat)) (k : String) (v : GoValue)
    (d : Int) (dflt : Int) (now : Nat) : String → Option (GoValue × Option Nat) :=
  let d' : Int := if d = 0 then dflt else d
  let e : Option Nat := if 0 < d' then some (now + d'.toNat) else none
  fun k' => if k' = k then some (v, e) else c k'

/-- The absolute expiry the store computes for duration directive `d`
with instance default `dflt` at time `now`. -/
def expiryOf (d : Int) (dflt : Int) (now : Nat) : Option Nat :=
  let d' : Int := if d = 0 then dflt else d
  if 0 < d' then some (now + d'.toNat) else none

/-- Outcome of one evaluation of a producer closure
`fn func() (T, error)`: a normal return carrying a result value and an
optional error value, or a panic carrying a payload. -/
inductive ProdOutcome where
  | ret (res : GoValue) (err : Option GoValue)
  | panics (p : GoValue)

/-- What a call to `Memoize` does in the caller: return a
`(value, error)` pair, or propagate a panic payload. -/
inductive CallResult where
  | ret (v : GoValue) (e : Option GoValue)
  | panicked (p : GoValue)
deriving Repr

/-- Full observation of one sequential `Memoize` call: the
caller-visible outcome, the updated instance, and two ghost counters
recording whether the producer closure ran and how many
`ExpirationOption` callbacks were evaluated. -/
structure MemoizeResult where
  out : CallResult
  memo : Memoizer
  producerInvoked : Bool
  callbackEvals : Nat

/-- Sequential big-step semantics of `Memoizer.Memoize` (part_000 lines
54-98) for a single caller at time `now`.

* Lines 55-64: cache lookup; on a hit the stored value is type-asserted
  against `T` and returned with no error, and a failed assertion panics
  with the error `cache value type mismatch` (this panic is raised
  before the deferred recover block is installed).
* Lines 77-90: on a miss, `singleflight.Do` runs the producer.  On a
  normal return with `err == nil` the expiration directive is resolved
  from the options (last `ExpirationOption` wins) and the result is
  stored; with `err != nil` nothing is stored.  On a producer panic the
  coordinator re-raises it wrapped in `panicError`, and the deferred
  recover block (lines 66-74) unwraps that wrapper before re-panicking
  in the caller.
* Lines 92-97: with a non-nil error and a nil result the zero value of
  `T` is returned alongside the error; otherwise the result is
  type-asserted to `T` (a failed assertion panics, and that panic also
  flows through the recover block unchanged, since a type-assertion
  fault implements no `Unwrap`). -/
def Memoize (m : Memoizer) (now : Nat) (key : String) (fn : ProdOutcome)
    (options : List MOption) : MemoizeResult :=
  match cacheGet m.cache key now with
  | some value =>
      if typeAsserts value m.tag then
        { out := .ret value none, memo := m, producerInvoked := false, callbackEvals := 0 }
      else
        { out := .panicked (.errv "cache value type mismatch"), memo := m,
          producerInvoked := false, callbackEvals := 0 }
  | none =>
      match fn with
      | .ret res err =>
          match err with
          | none =>
              let d := resolveExpiration options res
              let m' : Memoizer :=
                { m with cache := cacheSet m.cache key res d m.defaultExpiration now }
              if typeAsserts res m.tag then
                { out := .ret res none, memo := m', producerInvoked := true,
                  callbackEvals := countExpOptions options }
              else
                { out := .panicked (recoverFilter (.errv "interface conversion")),
                  memo := m', producerInvoked := true,
                  callbackEvals := countExpOptions options }
          | some e =>
              if res = .nilv then
                { out := .ret (zeroOf m.tag) (some e), memo := m,
                  producerInvoked := true, callbackEvals := 0 }
              else if typeAsserts res m.tag then
                { out := .ret res (some e), memo := m,
                  producerInvoked := true, callbackEvals := 0 }
              else
                { out := .panicked (recoverFilter (.errv "interface conversion")),
                  memo := m, producerInvoked := true, callbackEvals := 0 }
      | .panics p =>
          { out := .panicked (recoverFilter (.panicErrorv p)), memo := m,
            producerInvoked := true, callbackEvals := 0 }

/-- Whatever entry the instance holds for key `k` (if any) has not yet
expired at time `t` — the spec notion of "the cached entry has not
expired". -/
def EntryLiveAt (m : Memoizer) (k : String) (t : Nat) : Prop :=
  ∀ v e, m.cache k = some (v, some e) → t ≤ e

/-- A `Memoizer[int]` instance whose store holds a string under key `k`:
the representable shape of the API misuse that the type assertion on
the hit path guards against. -/
def mismatchedMemoizer : Memoizer :=
  { tag := .tInt, defaultExpiration := -1,
    cache := fun key => if key = "k" then some (.strv "oops", none) else none }

/-- A `Memoizer[int]` instance holding `41` under key `k` with absolute
expiry `10`. -/
def hitMemoizer : Memoizer :=
  { tag := .tInt, defaultExpiration := -1,
    cache := fun key => if key = "k" then some (.intv 41, some 10) else none }

/-- A world of independently constructed `Memoizer` instances, indexed
by `Nat`.  `NewMemoizer` (part_000 lines 23-28) builds each instance
from a fresh `singleflight.Group` and a fresh `cache.New(...)` store,
both held only in the fields of the returned struct (part_000 lines
13-16), and the package has no mutable package-level state, so a
`Memoize` call through instance `i` rewrites only instance `i`. -/
def MemoizeAt (w : Nat → Memoizer) (i : Nat) (now : Nat) (k : String)
    (fn : ProdOutcome) (opts : List MOption) : Nat → Memoizer :=
  fun j => if j = i then (Memoize (w i) now k fn opts).memo else w j

/-- Program counter of one concurrent caller working through `Memoize`
for the shared key. -/
inductive CallerPC where
  | start
  | missed
  | running
  | waiting (epoch : Nat)
  | done (v : GoValue) (e : Option GoValue)
  | panickedPC (p : GoValue)
deriving DecidableEq, Repr

/-- Fixed parameters of one concurrent scenario: the declared result
type of the instance and the pure outcome every producer execution
yields. -/
structure SysParams where
  tag : GoType
  fnv : GoValue
  fnErr : Option GoValue
deriving Repr

/-- State of the instance and the callers for one key: the cache entry
(no expiry, as under `NewMemoizer`), the epoch of the in-flight call if
one exists, the published outcome of each completed epoch, the callers
(by index), and the ghost count of producer executions started. -/
structure SysState where
  cacheVal : Option GoValue
  flight : Option Nat
  published : List (GoValue × Option GoValue)
  callers : List CallerPC
  runs : Nat
deriving DecidableEq, Repr

/-- One atomic action of some caller `i`. -/
inductive SysAction where
  | checkCache (i : Nat)
  | acquire (i : Nat)
  | joinCall (i : Nat)
  | finish (i : Nat)
  | wake (i : Nat)
deriving DecidableEq, Repr

/-- Modelled from the spec: one atomic step of the Call Coalescing
Coordinator model (spec §4.2; realised in the source by the external
`golang.org/x/sync/singleflight` dependency, which is not part of this
repository); `none` when the action is not enabled.  `checkCache`
performs the lookup and the type assertion of the hit path; `acquire`
opens the in-flight call for the key when none exists (the producer
starts, `runs` grows); `joinCall` attaches a caller to the existing
in-flight call; `finish` completes the leader: it publishes the outcome
for its epoch, stores a successful value in the cache, and removes the
in-flight entry immediately; `wake` delivers the published outcome of
the joined epoch to a waiter. -/
def stepAct (P : SysParams) (s : SysState) : SysAction → Option SysState
  | .checkCache i =>
      match s.callers.get? i with
      | some .start =>
          match s.cacheVal with
          | some v =>
              if typeAsserts v P.tag then
                some { s with callers := s.callers.set i (.done v none) }
              else
                some { s with callers :=
                  s.callers.set i (.panickedPC (.errv "cache value type mismatch")) }
          | none => some { s with callers := s.callers.set i .missed }
      | _ => none
  | .acquire i =>
      match s.callers.get? i, s.flight with
      | some .missed, none =>
          some { s with flight := some s.published.length,
                        callers := s.callers.set i .running,
                        runs := s.runs + 1 }
      | _, _ => none
  | .joinCall i =>
      match s.callers.get? i, s.flight with
      | some .missed, some e =>
          some { s with callers := s.callers.set i (.waiting e) }
      | _, _ => none
  | .finish i =>
      match s.callers.get? i, s.flight with
      | some .running, some _ =>
          some { s with
            flight := none,
            published := s.published ++ [(P.fnv, P.fnErr)],
            cacheVal := if P.fnErr = none then some P.fnv else s.cacheVal,
            callers := s.callers.set i (.done P.fnv P.fnErr) }
      | _, _ => none
  | .wake i =>
      match s.callers.get? i with
      | some (.waiting e) =>
          match s.published.get? e with
          | some out => some { s with callers := s.callers.set i (.done out.1 out.2) }
          | none => none
      | _ => none

/-- Run a list of actions from a state, failing if any action is not
enabled. -/
def runActions (P : SysParams) (s : SysState) : List SysAction → Option SysState
  | [] => some s
  | a :: rest =>
      match stepAct P s a with
      | some s' => runActions P s' rest
      | none => none

/-- The initial state for `n` concurrent callers of one key with nothing
cached and nothing in flight. -/
def initState (n : Nat) : SysState :=
  { cacheVal := none, flight := none, published := [],
    callers := List.replicate n .start, runs := 0 }

/-- The invariant of the interleaving model: (a) at most one caller is
running the producer at any instant and none is while no call is in
flight — invariant I1 of the spec; (b) the cache holds nothing but the
producer value, every published outcome is the producer outcome, and
every caller that returned observed the successful producer value. -/
def SysInv (P : SysParams) (s : SysState) : Prop :=
  (∀ i j, s.callers.get? i = some .running → s.callers.get? j = some .running → i = j)
  ∧ (s.flight = none → ∀ i, ¬ s.callers.get? i = some .running)
  ∧ (s.cacheVal = none ∨ s.cacheVal = some P.fnv)
  ∧ (∀ o ∈ s.published, o = (P.fnv, P.fnErr))
  ∧ (∀ i v e, s.callers.get? i = some (.done v e) → v = P.fnv ∧ e = none)

/-- The concurrent scenario of the claims: an int-typed instance whose
producer always succeeds with `42`. -/
def coalesceParams : SysParams := { tag := .tInt, fnv := .intv 42, fnErr := none }

/-- A two-caller schedule in which caller `1` joins the in-flight call
opened by caller `0` and is woken with its published outcome. -/
def coalesceTrace : List SysAction :=
  [.checkCache 0, .checkCache 1, .acquire 0, .joinCall 1, .finish 0, .wake 1]

/-- The final state of `coalesceTrace`: one producer run, both callers
done with `(42, no error)`. -/
def coalesceFinal : SysState :=
  { cacheVal := some (.intv 42), flight := none,
    published := [(.intv 42, none)],
    callers := [.done (.intv 42) none, .done (.intv 42) none], runs := 1 }

/-- A two-caller schedule in which both callers check the (empty) cache
first, but caller `1` reaches the coordinator only after caller `0` has
already completed and discarded its in-flight call. -/
def dedupCexTrace : List SysAction :=
  [.checkCache 0, .checkCache 1, .acquire 0, .finish 0, .acquire 1, .finish 1]

/-- The final state of `dedupCexTrace`: two producer runs. -/
def dedupCexFinal : SysState :=
  { cacheVal := some (.intv 42), flight := none,
    published := [(.intv 42, none), (.intv 42, none)],
    callers := [.done (.intv 42) none, .done (.intv 42) none], runs := 2 }

/-! ### Lemmas and claim theorems -/

/-- Path equation of `Memoize` for a cache hit. -/
lemma Memoize_eq_hit {m : Memoizer} {now : Nat} {key : String} {v : GoValue}
    (fn : ProdOutcome) (opts : List MOption)
    (h : cacheGet m.cache key now = some v) :
    Memoize m now key fn opts =
      if typeAsserts v m.tag then
        { out := .ret v none, memo := m, producerInvoked := false, callbackEvals := 0 }
      else
        { out := .panicked (.errv "cache value type mismatch"), memo := m,
          producerInvoked := false, callbackEvals := 0 } := by
  unfold Memoize
  rw [h]

/-- Path equation of `Memoize` for a miss with a successful producer. -/
lemma Memoize_eq_miss_ok {m : Memoizer} {now : Nat} {key : String}
    (res : GoValue) (opts : List MOption)
    (h : cacheGet m.cache key now = none) :
    Memoize m now key (.ret res none) opts =
      (if typeAsserts res m.tag then
        { out := .ret res none,
          memo := { m with
            cache := cacheSet m.cache key res (resolveExpiration opts res) m.defaultExpiration now },
          producerInvoked := true, callbackEvals := countExpOptions opts }
      else
        { out := .panicked (recoverFilter (.errv "interface conversion")),
          memo := { m with
            cache := cacheSet m.cache key res (resolveExpiration opts res) m.defaultExpiration now },
          producerInvoked := true, callbackEvals := countExpOptions opts }) := by
  unfold Memoize
  rw [h]

/-- Path equation of `Memoize` for a miss with a failing producer. -/
lemma Memoize_eq_miss_err {m : Memoizer} {now : Nat} {key : String}
    (res e : GoValue) (opts : List MOption)
    (h : cacheGet m.cache key now = none) :
    Memoize m now key (.ret res (some e)) opts =
      (if res = GoValue.nilv then
        { out := .ret (zeroOf m.tag) (some e), memo := m,
          producerInvoked := true, callbackEvals := 0 }
      else if typeAsserts res m.tag then
        { out := .ret res (some e), memo := m,
          producerInvoked := true, callbackEvals := 0 }
      else
        { out := .panicked (recoverFilter (.errv "interface conversion")), memo := m,
          producerInvoked := true, callbackEvals := 0 }) := by
  unfold Memoize
  rw [h]

/-- Path equation of `Memoize` for a miss with a panicking producer. -/
lemma Memoize_eq_miss_panic {m : Memoizer} {now : Nat} {key : String}
    (p : GoValue) (opts : List MOption)
    (h : cacheGet m.cache key now = none) :
    Memoize m now key (.panics p) opts =
      { out := .panicked (recoverFilter (.panicErrorv p)), memo := m,
        producerInvoked := true, callbackEvals := 0 } := by
  unfold Memoize
  rw [h]

/-- A successful lookup comes from a stored entry with the same value. -/
lemma cacheGet_some_inv {c : String → Option (GoValue × Option Nat)} {k : String}
    {now : Nat} {v : GoValue} (h : cacheGet c k now = some v) :
    ∃ exp, c k = some (v, exp) := by
  unfold cacheGet at h
  split at h
  · cases h
  · next w heq =>
    injection h with h
    subst h
    exact ⟨none, heq⟩
  · next w e heq =>
    split at h
    · injection h with h
      subst h
      exact ⟨some e, heq⟩
    · cases h

/-- A key that misses at `t1` still misses at any later time `t2`:
entries only become invalid as time advances. -/
lemma cacheGet_none_mono {c : String → Option (GoValue × Option Nat)} {k : String}
    {t1 t2 : Nat} (h : cacheGet c k t1 = none) (ht : t1 ≤ t2) :
    cacheGet c k t2 = none := by
  unfold cacheGet at h ⊢
  split at h
  · rfl
  · next w heq => cases h
  · next w e heq =>
    split at h
    · cases h
    · next hle =>
      rw [if_neg (by omega : ¬ t2 ≤ e)]

/-- A `Memoize` call never changes the declared result type of the
instance. -/
lemma memoize_tag (m : Memoizer) (now : Nat) (k : String) (fn : ProdOutcome)
    (opts : List MOption) : (Memoize m now k fn opts).memo.tag = m.tag := by
  cases hg : cacheGet m.cache k now with
  | some v =>
    rw [Memoize_eq_hit fn opts hg]
    split <;> rfl
  | none =>
    cases fn with
    | ret res err =>
      cases err with
      | none =>
        rw [Memoize_eq_miss_ok res opts hg]
        split <;> rfl
      | some e =>
        rw [Memoize_eq_miss_err res e opts hg]
        split
        · rfl
        · split <;> rfl
    | panics p =>
      rw [Memoize_eq_miss_panic p opts hg]

/-- On a cache miss the producer closure is always invoked. -/
lemma memoize_miss_invoked (m : Memoizer) (now : Nat) (k : String) (fn : ProdOutcome)
    (opts : List MOption) (h : cacheGet m.cache k now = none) :
    (Memoize m now k fn opts).producerInvoked = true := by
  cases fn with
  | ret res err =>
    cases err with
    | none =>
      rw [Memoize_eq_miss_ok res opts h]
      split <;> rfl
    | some e =>
      rw [Memoize_eq_miss_err res e opts h]
      split
      · rfl
      · split <;> rfl
  | panics p =>
    rw [Memoize_eq_miss_panic p opts h]

/-- If a `Memoize` call returns `(v, no error)`, then `v` passed the
type assertion against `T` and the instance now holds an entry for the
key with exactly that value. -/
lemma memoize_ret_none_cached {m : Memoizer} {now : Nat} {k : String}
    {fn : ProdOutcome} {opts : List MOption} {v : GoValue}
    (h : (Memoize m now k fn opts).out = .ret v none) :
    typeAsserts v m.tag = true ∧
      ∃ exp, (Memoize m now k fn opts).memo.cache k = some (v, exp) := by
  cases hg : cacheGet m.cache k now with
  | some value =>
    rw [Memoize_eq_hit fn opts hg] at h ⊢
    by_cases ha : typeAsserts value m.tag = true
    · rw [if_pos ha] at h ⊢
      simp only [CallResult.ret.injEq] at h
      obtain ⟨hv, -⟩ := h
      subst hv
      obtain ⟨exp, hc⟩ := cacheGet_some_inv hg
      exact ⟨ha, exp, hc⟩
    · rw [if_neg ha] at h
      cases h
  | none =>
    cases fn with
    | ret res err =>
      cases err with
      | none =>
        rw [Memoize_eq_miss_ok res opts hg] at h ⊢
        by_cases ha : typeAsserts res m.tag = true
        · rw [if_pos ha] at h ⊢
          simp only [CallResult.ret.injEq] at h
          obtain ⟨hv, -⟩ := h
          subst hv
          refine ⟨ha, ?_⟩
          simp [cacheSet]
        · rw [if_neg ha] at h
          cases h
      | some e =>
        rw [Memoize_eq_miss_err res e opts hg] at h
        split at h
        · simp only [CallResult.ret.injEq] at h
          exact absurd h.2 (by simp)
        · split at h
          · simp only [CallResult.ret.injEq] at h
            exact absurd h.2 (by simp)
          · cases h
    | panics p =>
      rw [Memoize_eq_miss_panic p opts hg] at h
      cases h

/-- Claim C2: if `Memoize(k, f1)` returns a value `v` with no error, a
subsequent `Memoize(k, f2)` — for any producer `f2` (even one that
would fail) and any options — returns `(v, no error)` without invoking
`f2` and without changing the instance, as long as the cached entry has
not expired. -/
theorem memoize_cache_hit_avoids_recomputation
    (m : Memoizer) (t1 t2 : Nat) (k : String) (f1 f2 : ProdOutcome)
    (o1 o2 : List MOption) (v : GoValue)
    (h1 : (Memoize m t1 k f1 o1).out = .ret v none)
    (h2 : EntryLiveAt (Memoize m t1 k f1 o1).memo k t2) :
    Memoize (Memoize m t1 k f1 o1).memo t2 k f2 o2 =
      { out := .ret v none, memo := (Memoize m t1 k f1 o1).memo,
        producerInvoked := false, callbackEvals := 0 } := by
  obtain ⟨hassert, exp, hc⟩ := memoize_ret_none_cached h1
  have htag := memoize_tag m t1 k f1 o1
  have hget : cacheGet (Memoize m t1 k f1 o1).memo.cache k t2 = some v := by
    unfold cacheGet
    rw [hc]
    cases exp with
    | none => rfl
    | some e =>
      simp only
      rw [if_pos (h2 v e hc)]
  rw [Memoize_eq_hit f2 o2 hget, if_pos (show typeAsserts v (Memoize m t1 k f1 o1).memo.tag = true by rw [htag]; exact hassert)]

/-- Witness for C2: a first call caching `42` under `key1`, then a
second call at a later time whose producer would fail; the second call
returns `(42, no error)` without running its producer and without
changing the instance. -/
theorem memoize_cache_hit_avoids_recomputation_witness :
    Memoize (Memoize (NewMemoizer .tInt) 0 "key1" (.ret (.intv 42) none) []).memo
        5 "key1" (.ret (.intv 0) (some (.errv "should not run"))) [] =
      { out := .ret (.intv 42) none,
        memo := (Memoize (NewMemoizer .tInt) 0 "key1" (.ret (.intv 42) none) []).memo,
        producerInvoked := false, callbackEvals := 0 } :=
  memoize_cache_hit_avoids_recomputation (NewMemoizer .tInt) 0 5 "key1"
    (.ret (.intv 42) none) (.ret (.intv 0) (some (.errv "should not run"))) [] []
    (.intv 42) (by rfl)
    (by
      intro v e hve
      rw [show (Memoize (NewMemoizer .tInt) 0 "key1" (.ret (.intv 42) none) []).memo.cache "key1"
            = some (.intv 42, none) from rfl] at hve
      simp at hve)

/-- Claim C3: on a cache miss, a producer outcome that is an error or a
panic leaves the instance — in particular the entry for `k` — entirely
unchanged, and consequently any later `Memoize(k, g)` (at the same or a
later time) still misses and invokes `g`. -/
theorem memoize_failure_never_cached
    (m : Memoizer) (now : Nat) (k : String) (fn : ProdOutcome)
    (opts : List MOption) (res e p : GoValue)
    (hmiss : cacheGet m.cache k now = none)
    (hfail : fn = ProdOutcome.ret res (some e) ∨ fn = ProdOutcome.panics p) :
    (Memoize m now k fn opts).memo = m ∧
      ∀ t2 g opts2, now ≤ t2 →
        (Memoize (Memoize m now k fn opts).memo t2 k g opts2).producerInvoked = true := by
  have hsame : (Memoize m now k fn opts).memo = m := by
    rcases hfail with hf | hf
    · subst hf
      rw [Memoize_eq_miss_err res e opts hmiss]
      split
      · rfl
      · split <;> rfl
    · subst hf
      rw [Memoize_eq_miss_panic p opts hmiss]
  refine ⟨hsame, ?_⟩
  intro t2 g opts2 ht
  rw [hsame]
  exact memoize_miss_invoked m t2 k g opts2 (cacheGet_none_mono hmiss ht)

/-- Witness for C3: a failing producer under key `key2` caches nothing,
and the follow-up call at a later time runs its producer. -/
theorem memoize_failure_never_cached_witness :
    (Memoize (NewMemoizer .tInt) 0 "key2" (.ret (.intv 0) (some (.errv "boom"))) []).memo
        = NewMemoizer .tInt ∧
      (Memoize (Memoize (NewMemoizer .tInt) 0 "key2"
          (.ret (.intv 0) (some (.errv "boom"))) []).memo
        7 "key2" (.ret (.intv 1) none) []).producerInvoked = true := by
  have h := memoize_failure_never_cached (NewMemoizer .tInt) 0 "key2"
    (.ret (.intv 0) (some (.errv "boom"))) [] (.intv 0) (.errv "boom") .nilv
    (by rfl) (Or.inl rfl)
  exact ⟨h.1, h.2 7 (.ret (.intv 1) none) [] (by omega)⟩

/-- Claim C6: if the cache lookup finds a stored value whose runtime
type does not match the declared result type `T`, `Memoize` panics with
the `cache value type mismatch` error — a fatal abort, not a
recoverable error return — and the producer is never invoked. -/
theorem memoize_type_mismatch_panics
    (m : Memoizer) (now : Nat) (k : String) (fn : ProdOutcome)
    (opts : List MOption) (v : GoValue)
    (hhit : cacheGet m.cache k now = some v)
    (hbad : typeAsserts v m.tag = false) :
    (Memoize m now k fn opts).out = .panicked (.errv "cache value type mismatch") ∧
      (Memoize m now k fn opts).producerInvoked = false := by
  rw [Memoize_eq_hit fn opts hhit, if_neg (by rw [hbad]; simp)]
  exact ⟨rfl, rfl⟩

/-- Witness for C6: looking up the string-valued entry through the
int-typed instance panics with the mismatch error and never runs the
producer. -/
theorem memoize_type_mismatch_panics_witness :
    (Memoize mismatchedMemoizer 0 "k" (.ret (.intv 1) none) []).out
        = .panicked (.errv "cache value type mismatch") ∧
      (Memoize mismatchedMemoizer 0 "k" (.ret (.intv 1) none) []).producerInvoked = false :=
  memoize_type_mismatch_panics mismatchedMemoizer 0 "k" (.ret (.intv 1) none) []
    (.strv "oops") (by rfl) (by rfl)

/-- Claim C10: on a cache hit (whether or not the stored value passes
the type assertion), `Memoize` leaves the instance untouched — the
entry value and expiry are unchanged — the producer does not run, and
any per-call expiration options are ignored (no callback is evaluated,
so the TTL of the entry is neither extended nor shortened). -/
theorem memoize_hit_frame
    (m : Memoizer) (now : Nat) (k : String) (fn : ProdOutcome)
    (opts : List MOption) (v : GoValue)
    (hhit : cacheGet m.cache k now = some v) :
    (Memoize m now k fn opts).memo = m ∧
      (Memoize m now k fn opts).producerInvoked = false ∧
      (Memoize m now k fn opts).callbackEvals = 0 := by
  rw [Memoize_eq_hit fn opts hhit]
  split <;> exact ⟨rfl, rfl, rfl⟩

/-- Witness for C10: a hit on the live entry with an expiration option
supplied changes nothing, runs no producer, and evaluates no
callback. -/
theorem memoize_hit_frame_witness :
    (Memoize hitMemoizer 3 "k" (.ret (.intv 5) none)
        [.withExpiration (fun _ => 100)]).memo = hitMemoizer ∧
      (Memoize hitMemoizer 3 "k" (.ret (.intv 5) none)
        [.withExpiration (fun _ => 100)]).producerInvoked = false ∧
      (Memoize hitMemoizer 3 "k" (.ret (.intv 5) none)
        [.withExpiration (fun _ => 100)]).callbackEvals = 0 :=
  memoize_hit_frame hitMemoizer 3 "k" (.ret (.intv 5) none)
    [.withExpiration (fun _ => 100)] (.intv 41) (by rfl)

/-- Counterexample to C4 as stated: on a cache miss with a producer that
returns the non-nil value `7` together with an error, `Memoize` returns
`7` — the producer-supplied value — alongside the error, not the zero
value of `int` (the guard at part_000 line 92 is
`err != nil && result == nil`, so a non-nil partial result is passed
through). -/
theorem memoize_error_zero_value_cex :
    (Memoize (NewMemoizer .tInt) 0 "k" (.ret (.intv 7) (some (.errv "boom"))) []).out
        = .ret (.intv 7) (some (.errv "boom"))
      ∧ GoValue.intv 7 ≠ zeroOf GoType.tInt :=
  ⟨rfl, by decide⟩

/-- Claim C4 (amended): on a failure outcome with error `e`, `Memoize`
returns the zero value of `T` alongside `e` only when the accompanying
producer result is nil; when that result is non-nil (and of type `T`),
it is returned alongside `e` instead. -/
theorem memoize_error_return_amended
    (m : Memoizer) (now : Nat) (k : String) (opts : List MOption)
    (res e : GoValue)
    (hmiss : cacheGet m.cache k now = none) :
    (res = GoValue.nilv →
        (Memoize m now k (.ret res (some e)) opts).out = .ret (zeroOf m.tag) (some e)) ∧
      (res ≠ GoValue.nilv → typeAsserts res m.tag = true →
        (Memoize m now k (.ret res (some e)) opts).out = .ret res (some e)) := by
  rw [Memoize_eq_miss_err res e opts hmiss]
  constructor
  · intro hn
    rw [if_pos hn]
  · intro hn ha
    rw [if_neg hn, if_pos ha]

/-- Witness for the amended C4: a nil producer result yields `(0, err)`
for an int-typed instance, while a producer result of `5` yields
`(5, err)`. -/
theorem memoize_error_return_amended_witness :
    (Memoize (NewMemoizer .tInt) 0 "k" (.ret .nilv (some (.errv "b"))) []).out
        = .ret (.intv 0) (some (.errv "b")) ∧
      (Memoize (NewMemoizer .tInt) 0 "k" (.ret (.intv 5) (some (.errv "b"))) []).out
        = .ret (.intv 5) (some (.errv "b")) :=
  ⟨(memoize_error_return_amended (NewMemoizer .tInt) 0 "k" [] .nilv (.errv "b")
      (by rfl)).1 rfl,
   (memoize_error_return_amended (NewMemoizer .tInt) 0 "k" [] (.intv 5) (.errv "b")
      (by rfl)).2 (by decide) (by rfl)⟩

/-- Counterexample to C5 as stated: a producer panic whose payload is
the non-error value `"boom"` is not propagated with the same cause —
the coordinator wraps it in `panicError`, whose `Unwrap` yields a nil
error for a non-error payload, and the recover block at part_000 lines
66-74 re-panics that nil, masking the original payload. -/
theorem memoize_panic_payload_cex :
    (Memoize (NewMemoizer .tInt) 0 "k" (.panics (.strv "boom")) []).out
        = .panicked .nilv
      ∧ GoValue.nilv ≠ GoValue.strv "boom" :=
  ⟨rfl, by decide⟩

/-- Claim C5 (amended): on a cache miss, if the producer panics with a
payload that is an error value, the caller observes a panic carrying
exactly that payload — the coordinator wrapper is unwrapped back to the
original cause, nothing is converted to a normal error return, and the
instance (hence the in-flight slot for the key) is left clean for the
next call; a non-error payload, however, is replaced by a nil
payload. -/
theorem memoize_panic_error_payload_preserved
    (m : Memoizer) (now : Nat) (k : String) (opts : List MOption) (p : GoValue)
    (hmiss : cacheGet m.cache k now = none)
    (hp : isGoError p = true) :
    (Memoize m now k (.panics p) opts).out = .panicked p ∧
      (Memoize m now k (.panics p) opts).memo = m := by
  rw [Memoize_eq_miss_panic p opts hmiss]
  refine ⟨?_, rfl⟩
  simp [recoverFilter, implementsUnwrap, goUnwrap, hp]

/-- Witness for the amended C5: a panic with the error value
`customError "custom panic error"` (the scenario of the repository test
`testPanicPropagation`) reaches the caller with that exact payload and
leaves the instance unchanged. -/
theorem memoize_panic_error_payload_preserved_witness :
    (Memoize (NewMemoizer .tInt) 0 "k" (.panics (.errv "custom panic error")) []).out
        = .panicked (.errv "custom panic error") ∧
      (Memoize (NewMemoizer .tInt) 0 "k" (.panics (.errv "custom panic error")) []).memo
        = NewMemoizer .tInt :=
  memoize_panic_error_payload_preserved (NewMemoizer .tInt) 0 "k" []
    (.errv "custom panic error") (by rfl) (by rfl)

/-- The option-resolution fold commutes with interpreting a pending
callback: folding durations starting from the interpretation of an
accumulator equals interpreting the folded accumulator. -/
lemma resolve_foldl_general (res : GoValue) (opts : List MOption) :
    ∀ (a : Int) (c : Option (GoValue → Int)),
      opts.foldl
          (fun acc o =>
            match o with
            | .withExpiration cb => cb res
            | .other => acc)
          (match c with
           | some cb => cb res
           | none => a)
        =
        (match opts.foldl
            (fun acc o =>
              match o with
              | .withExpiration cb => some cb
              | .other => acc) c with
         | some cb => cb res
         | none => a) := by
  induction opts with
  | nil => intro a c; rfl
  | cons o rest ih =>
    intro a c
    cases o with
    | other => exact ih a c
    | withExpiration cb => exact ih a (some cb)

/-- The duration the resolution loop ends with is the last
`ExpirationOption` callback applied to the result. -/
lemma resolveExpiration_eq_last {opts : List MOption} {cb : GoValue → Int}
    (res : GoValue) (h : lastExpOpt opts = some cb) :
    resolveExpiration opts res = cb res := by
  have hg := resolve_foldl_general res opts 0 none
  unfold lastExpOpt at h
  rw [h] at hg
  exact hg

/-- Claim C7: when a `Memoize` call carries expiration override options
and the producer succeeds, the stored entry holds the producer result
with the expiry computed (by the store `Set` rules) from the duration
returned by the LAST supplied `ExpirationOption` callback applied to
the result value; earlier overrides do not appear in the stored entry
at all. -/
theorem memoize_last_expiration_option_wins
    (m : Memoizer) (now : Nat) (k : String) (res : GoValue)
    (opts : List MOption) (cb : GoValue → Int)
    (hmiss : cacheGet m.cache k now = none)
    (hlast : lastExpOpt opts = some cb) :
    (Memoize m now k (.ret res none) opts).memo.cache k
      = some (res, expiryOf (cb res) m.defaultExpiration now) := by
  rw [Memoize_eq_miss_ok res opts hmiss]
  have hstore :
      cacheSet m.cache k res (resolveExpiration opts res) m.defaultExpiration now k
        = some (res, expiryOf (cb res) m.defaultExpiration now) := by
    rw [resolveExpiration_eq_last res hlast]
    simp [cacheSet, expiryOf]
  split <;> exact hstore

/-- Witness for C7: with two overrides returning durations `100` and
`200`, the stored entry under `k` has absolute expiry `now + 200` — the
output of the last override only. -/
theorem memoize_last_expiration_option_wins_witness :
    (Memoize (NewMemoizer .tInt) 3 "k" (.ret (.intv 1) none)
        [.withExpiration (fun _ => 100), .withExpiration (fun _ => 200)]).memo.cache "k"
      = some (.intv 1, some 203) :=
  memoize_last_expiration_option_wins (NewMemoizer .tInt) 3 "k" (.intv 1)
    [.withExpiration (fun _ => 100), .withExpiration (fun _ => 200)]
    (fun _ => 200) (by rfl) (by rfl)

/-- Claim C8: the number of expiration-override callbacks evaluated by a
`Memoize` call equals the number of `ExpirationOption` values supplied
exactly when the cache misses and the producer returns successfully; on
a hit, on a producer error and on a producer panic no callback is ever
evaluated. -/
theorem memoize_callback_evaluated_iff_success
    (m : Memoizer) (now : Nat) (k : String) (fn : ProdOutcome)
    (opts : List MOption) :
    (Memoize m now k fn opts).callbackEvals =
      (match cacheGet m.cache k now, fn with
       | none, .ret _ none => countExpOptions opts
       | _, _ => 0) := by
  cases hg : cacheGet m.cache k now with
  | some v =>
    rw [Memoize_eq_hit fn opts hg]
    split <;> rfl
  | none =>
    cases fn with
    | ret res err =>
      cases err with
      | none =>
        rw [Memoize_eq_miss_ok res opts hg]
        split <;> rfl
      | some e =>
        rw [Memoize_eq_miss_err res e opts hg]
        split
        · rfl
        · split <;> rfl
    | panics p =>
      rw [Memoize_eq_miss_panic p opts hg]

/-- Claim C9: two independently constructed `Memoizer` instances share
no state — a `Memoize` call on instance `i` leaves every other instance
`j`, including its cache contents, exactly as it was. -/
theorem memoizer_instances_independent
    (w : Nat → Memoizer) (i j : Nat) (now : Nat) (k : String)
    (fn : ProdOutcome) (opts : List MOption)
    (hij : j ≠ i) :
    MemoizeAt w i now k fn opts j = w j := by
  unfold MemoizeAt
  rw [if_neg hij]

/-- Witness for C9: a call through instance `0` of a world of fresh
int-typed instances leaves instance `1` untouched. -/
theorem memoizer_instances_independent_witness :
    MemoizeAt (fun _ => NewMemoizer .tInt) 0 0 "k" (.ret (.intv 42) none) [] 1
      = NewMemoizer .tInt :=
  memoizer_instances_independent (fun _ => NewMemoizer .tInt) 0 1 0 "k"
    (.ret (.intv 42) none) [] (by decide)

/-- Reading a list after setting index `i`: either we read the new value
at `i`, or we read an old value elsewhere. -/
lemma get?_set_inv {α : Type} {l : List α} {i j : Nat} {x y : α}
    (h : (l.set i x).get? j = some y) :
    (i = j ∧ y = x) ∨ (i ≠ j ∧ l.get? j = some y) := by
  by_cases hij : i = j
  · subst hij
    rw [List.get?_set_eq] at h
    cases hl : l.get? i with
    | none => rw [hl] at h; cases h
    | some z =>
      rw [hl] at h
      simp only [Option.map_eq_map, Option.map_some] at h
      injection h with h
      exact Or.inl ⟨rfl, h.symm⟩
  · rw [List.get?_set_ne x l hij] at h
    exact Or.inr ⟨hij, h⟩

/-- Setting a caller to a non-`running` program counter introduces no
new running caller. -/
lemma noNewRunning {l : List CallerPC} {i j : Nat} {pc : CallerPC}
    (hpc : pc ≠ CallerPC.running)
    (h : (l.set i pc).get? j = some .running) : l.get? j = some .running := by
  rcases get?_set_inv h with ⟨-, hx⟩ | ⟨-, hj⟩
  · exact absurd hx.symm hpc
  · exact hj

/-- Every enabled step of the interleaving model preserves the
invariant, provided the producer value matches the declared type and
the producer succeeds. -/
lemma stepAct_preserves_inv {P : SysParams} {s s' : SysState} {a : SysAction}
    (htag : typeAsserts P.fnv P.tag = true) (hErr : P.fnErr = none)
    (h : stepAct P s a = some s') (hinv : SysInv P s) : SysInv P s' := by
  obtain ⟨hmux, hidle, hcache, hpub, hdone⟩ := hinv
  cases a with
  | checkCache i =>
    cases hpc : s.callers.get? i with
    | none =>
      simp only [stepAct, hpc] at h
      exact Option.noConfusion h
    | some pc =>
      cases pc <;> simp only [stepAct, hpc] at h
      case start =>
        cases hcv : s.cacheVal with
        | none =>
          simp only [hcv] at h
          injection h with h
          subst h
          refine ⟨?_, ?_, Or.inl rfl, hpub, ?_⟩
          · intro i' j' hi hj
            exact hmux i' j' (noNewRunning (by simp) hi) (noNewRunning (by simp) hj)
          · intro hf i' hi
            exact hidle hf i' (noNewRunning (by simp) hi)
          · intro i' v' e' hi
            rcases get?_set_inv hi with ⟨-, hx⟩ | ⟨-, hi'⟩
            · cases hx
            · exact hdone i' v' e' hi'
        | some v =>
          have hv : v = P.fnv := by
            rcases hcache with hc | hc
            · exact Option.noConfusion (hcv.symm.trans hc)
            · exact Option.some.inj (hcv.symm.trans hc)
          subst hv
          simp only [hcv] at h
          rw [if_pos htag] at h
          injection h with h
          subst h
          refine ⟨?_, ?_, Or.inr rfl, hpub, ?_⟩
          · intro i' j' hi hj
            exact hmux i' j' (noNewRunning (by simp) hi) (noNewRunning (by simp) hj)
          · intro hf i' hi
            exact hidle hf i' (noNewRunning (by simp) hi)
          · intro i' v' e' hi
            rcases get?_set_inv hi with ⟨-, hx⟩ | ⟨-, hi'⟩
            · injection hx with h1 h2
              exact ⟨h1, h2⟩
            · exact hdone i' v' e' hi'
      all_goals exact Option.noConfusion h
  | acquire i =>
    cases hpc : s.callers.get? i with
    | none =>
      simp only [stepAct, hpc] at h
      exact Option.noConfusion h
    | some pc =>
      cases hfl : s.flight with
      | some e =>
        cases pc <;> simp only [stepAct, hpc, hfl] at h <;> exact Option.noConfusion h
      | none =>
        cases pc <;> simp only [stepAct, hpc, hfl] at h
        case missed =>
          injection h with h
          subst h
          have hnone := hidle hfl
          refine ⟨?_, ?_, hcache, hpub, ?_⟩
          · intro i' j' hi hj
            have key : ∀ a, (s.callers.set i CallerPC.running).get? a = some .running →
                a = i := by
              intro a ha
              rcases get?_set_inv ha with ⟨hia, -⟩ | ⟨-, ha'⟩
              · exact hia.symm
              · exact absurd ha' (hnone a)
            rw [key i' hi, key j' hj]
          · intro hf
            cases hf
          · intro i' v' e' hi
            rcases get?_set_inv hi with ⟨-, hx⟩ | ⟨-, hi'⟩
            · cases hx
            · exact hdone i' v' e' hi'
        all_goals exact Option.noConfusion h
  | joinCall i =>
    cases hpc : s.callers.get? i with
    | none =>
      simp only [stepAct, hpc] at h
      exact Option.noConfusion h
    | some pc =>
      cases hfl : s.flight with
      | none =>
        cases pc <;> simp only [stepAct, hpc, hfl] at h <;> exact Option.noConfusion h
      | some e =>
        cases pc <;> simp only [stepAct, hpc, hfl] at h
        case missed =>
          injection h with h
          subst h
          refine ⟨?_, ?_, hcache, hpub, ?_⟩
          · intro i' j' hi hj
            exact hmux i' j' (noNewRunning (by simp) hi) (noNewRunning (by simp) hj)
          · intro hf
            cases hf
          · intro i' v' e' hi
            rcases get?_set_inv hi with ⟨-, hx⟩ | ⟨-, hi'⟩
            · cases hx
            · exact hdone i' v' e' hi'
        all_goals exact Option.noConfusion h
  | finish i =>
    cases hpc : s.callers.get? i with
    | none =>
      simp only [stepAct, hpc] at h
      exact Option.noConfusion h
    | some pc =>
      cases hfl : s.flight with
      | none =>
        cases pc <;> simp only [stepAct, hpc, hfl] at h <;> exact Option.noConfusion h
      | some e =>
        cases pc <;> simp only [stepAct, hpc, hfl] at h
        case running =>
          injection h with h
          subst h
          have hnorun : ∀ a,
              ¬ (s.callers.set i (CallerPC.done P.fnv P.fnErr)).get? a = some .running := by
            intro a ha
            rcases get?_set_inv ha with ⟨-, hx⟩ | ⟨hne, ha'⟩
            · cases hx
            · exact hne (hmux i a hpc ha')
          refine ⟨?_, ?_, ?_, ?_, ?_⟩
          · intro i' j' hi hj
            exact absurd hi (hnorun i')
          · intro _ i' hi
            exact absurd hi (hnorun i')
          · rw [hErr]
            simp
          · intro o ho
            rcases List.mem_append.mp ho with ho' | ho'
            · exact hpub o ho'
            · simpa using ho'
          · intro i' v' e' hi
            rcases get?_set_inv hi with ⟨-, hx⟩ | ⟨-, hi'⟩
            · injection hx with h1 h2
              rw [hErr] at h2
              exact ⟨h1, h2⟩
            · exact hdone i' v' e' hi'
        all_goals exact Option.noConfusion h
  | wake i =>
    cases hpc : s.callers.get? i with
    | none =>
      simp only [stepAct, hpc] at h
      exact Option.noConfusion h
    | some pc =>
      cases pc <;> simp only [stepAct, hpc] at h
      case waiting e =>
        cases hout : s.published.get? e with
        | none =>
          simp only [hout] at h
          exact Option.noConfusion h
        | some out =>
          simp only [hout] at h
          injection h with h
          subst h
          have houtv : out = (P.fnv, P.fnErr) := hpub out (List.get?_mem hout)
          refine ⟨?_, ?_, hcache, hpub, ?_⟩
          · intro i' j' hi hj
            exact hmux i' j' (noNewRunning (by simp) hi) (noNewRunning (by simp) hj)
          · intro hf i' hi
            exact hidle hf i' (noNewRunning (by simp) hi)
          · intro i' v' e' hi
            rcases get?_set_inv hi with ⟨-, hx⟩ | ⟨-, hi'⟩
            · injection hx with h1 h2
              rw [houtv] at h1 h2
              rw [hErr] at h2
              exact ⟨h1, h2⟩
            · exact hdone i' v' e' hi'
      all_goals exact Option.noConfusion h

/-- The invariant is preserved along any enabled action sequence. -/
lemma runActions_preserves_inv {P : SysParams}
    (htag : typeAsserts P.fnv P.tag = true) (hErr : P.fnErr = none) :
    ∀ (acts : List SysAction) (s s' : SysState),
      SysInv P s → runActions P s acts = some s' → SysInv P s' := by
  intro acts
  induction acts with
  | nil =>
    intro s s' hinv h
    injection h with h
    subst h
    exact hinv
  | cons a rest ih =>
    intro s s' hinv h
    unfold runActions at h
    cases hstep : stepAct P s a with
    | none => rw [hstep] at h; cases h
    | some s1 =>
      rw [hstep] at h
      exact ih s1 s' (stepAct_preserves_inv htag hErr hstep hinv) h

/-- The initial state satisfies the invariant. -/
lemma initState_inv (P : SysParams) (n : Nat) : SysInv P (initState n) := by
  refine ⟨?_, ?_, Or.inl rfl, ?_, ?_⟩
  · intro i j hi hj
    cases List.eq_of_mem_replicate (List.get?_mem hi)
  · intro _ i hi
    cases List.eq_of_mem_replicate (List.get?_mem hi)
  · intro o ho
    cases ho
  · intro i v e hi
    cases List.eq_of_mem_replicate (List.get?_mem hi)

/-- Claim C1 (amended): for any number of concurrent callers of one key
started against an empty cache, in every reachable interleaving at most
one caller is executing the producer at any instant (executions never
overlap — invariant I1), and every caller that has returned observed
the identical successful producer value.  The producer may, however,
run more than once along a schedule in which a caller reaches the
coordinator only after an earlier execution has already completed (see
the counterexample), so "executed exactly once" holds only for callers
that coalesce onto the same in-flight call, not across the whole
schedule. -/
theorem memoize_concurrent_dedup_amended
    (P : SysParams) (n : Nat) (acts : List SysAction) (s : SysState)
    (htag : typeAsserts P.fnv P.tag = true) (hErr : P.fnErr = none)
    (h : runActions P (initState n) acts = some s) :
    (∀ i j, s.callers.get? i = some .running → s.callers.get? j = some .running → i = j)
      ∧ ∀ i v e, s.callers.get? i = some (.done v e) → v = P.fnv ∧ e = none := by
  have hinv := runActions_preserves_inv htag hErr acts (initState n) s (initState_inv P n) h
  exact ⟨hinv.1, hinv.2.2.2.2⟩

/-- Witness for the amended C1: instantiating the theorem on the
concrete coalescing schedule `coalesceTrace` and reading off caller
`1`. -/
theorem memoize_concurrent_dedup_amended_witness :
    GoValue.intv 42 = coalesceParams.fnv ∧ (none : Option GoValue) = none :=
  (memoize_concurrent_dedup_amended coalesceParams 2 coalesceTrace coalesceFinal
      (by decide) (by decide) (by decide)).2 1 (.intv 42) none (by decide)

/-- Counterexample to C1 as stated: both callers invoke `Memoize` while
no cached entry exists (each `checkCache` step fires on an empty
cache), both return the identical successful value `42`, yet the
producer is executed twice (`runs = 2`) — caller `1` misses the cache
before caller `0` stores its result, and opens a fresh in-flight call
after caller `0` has completed and cleaned up.  The executions do not
overlap, but "exactly once" fails. -/
theorem memoize_concurrent_dedup_cex :
    runActions coalesceParams (initState 2) dedupCexTrace = some dedupCexFinal
      ∧ dedupCexFinal.runs = 2
      ∧ dedupCexFinal.callers = [.done (.intv 42) none, .done (.intv 42) none] :=
  ⟨by decide, by decide, by decide⟩
